import Mathlib

/-!
Verification development for the script logs-per-host.js.

The script talks to a GraphQL endpoint.  We embed its pure control logic:
the network is represented by oracle functions (one per query family) that
map a request to the response the remote service would produce, and the
two unbounded while-loops are embedded with an explicit fuel argument that
bounds how many follow-up requests the loop may still issue.  Every
function also returns the list of requests it issued, so that claims
about "which request is sent next" become statements about that trace.
-/

/-- Truthiness of an optional JS string value: both undefined and the empty
string are falsy.  Returns the string when it is truthy, none otherwise.
Used for the guid check in findHosts and the nextCursor check. -/
def strTruthy : Option String → Option String
  | none => none
  | some s => if s = "" then none else some s

/-- One element of the entities array of an entitySearch page, as selected by
the getXstoreEntities query: guid, name, accountId, reporting.  guid is
optional because the code checks its truthiness before using it. -/
structure Entity where
  guid : Option String
  name : String
  accountId : Int
  reporting : Bool
deriving Repr, DecidableEq

/-- One page of entitySearch results: the entities array and the nextCursor
field (absent or empty string means no further page). -/
structure EntityPage where
  entities : List Entity
  nextCursor : Option String
deriving Repr, DecidableEq

/-- One row of the NRQL facet results array of getLogCountByEntity.  facet
records the truthiness of the facet attribute of the row (the code only
keeps rows whose facet is truthy); hostname and count are the attributes
the code reads. -/
structure Row where
  facet : Bool
  hostname : String
  count : Nat
deriving Repr, DecidableEq

/-- A record pushed onto one of the host arrays.  The JS code pushes plain
objects whose key sets differ between the two producers, so every key that
some producer omits is an Option here: findHosts pushes objects with keys
guid and accountId only; findLogCountByHost pushes objects with keys
accountId, hostname and logCount only.  An absent key is none. -/
structure HostRec where
  accountId : Int
  guid : Option String
  hostname : Option String
  logCount : Option Nat
deriving Repr, DecidableEq

/-- A request of the entity-search family: the initial getXstoreEntities
query (no cursor) or a getMoreXstoreEntities query carrying a cursor. -/
inductive EntReq where
  | first : EntReq
  | more : String → EntReq
deriving Repr, DecidableEq

/-- A request of the log-count family: the initial getLogCountByEntity query
for an account, or a getMoreLogCountByEntity query whose NRQL text has the
extra filter hostname > watermark spliced in for that account. -/
inductive LogReq where
  | first : Int → LogReq
  | more : Int → String → LogReq
deriving Repr, DecidableEq

/-- JS Set-based deduplication helper: jsSetDedupAux seen l keeps the
elements of l not already seen, first occurrence first. -/
def jsSetDedupAux [DecidableEq α] : List α → List α → List α
  | _, [] => []
  | seen, a :: rest =>
    if a ∈ seen then jsSetDedupAux seen rest
    else a :: jsSetDedupAux (a :: seen) rest

/-- Embedding of the JS idiom spread of new Set(l): duplicates removed,
insertion order of first occurrences preserved. -/
def jsSetDedup [DecidableEq α] (l : List α) : List α := jsSetDedupAux [] l

/-- The watermark computation of findLogCountByHost: build
alphaHostNames as the deduplicated, lexicographically sorted hostnames of
the page, and take its last element (empty string standing for the
JS undefined when the page is empty). -/
def lastAlpha (results : List Row) : String :=
  let alphaHostNames := List.insertionSort (fun a b : String => a ≤ b)
    (jsSetDedup (results.map Row.hostname))
  (alphaHostNames.getLast?).getD ""

/-- The records pushed by one iteration of the findLogCountByHost row loop:
rows with truthy facet become objects with accountId, hostname, logCount. -/
def extractRows (account : Int) (results : List Row) : List HostRec :=
  (results.filter Row.facet).map
    (fun r => ⟨account, none, some r.hostname, some r.count⟩)

/-- The inner while-loop of findLogCountByHost for one account.  req is the
request whose response is about to be processed (the loop entry processes
the initial getLogCountByEntity request), fuel bounds the number of
follow-up requests still allowed.  Returns the accumulated hostsWithLogs
records, the list of requests issued (req first), and the remaining fuel
(positive remaining fuel means the loop stopped on its own: the response
was undefined or its row count differed from 2000). -/
def logLoop (b : LogReq → Option (List Row)) (a : Int) :
    Nat → LogReq → List HostRec → List HostRec × List LogReq × Nat
  | fuel + 1, req, acc =>
    match b req with
    | none => (acc, [req], fuel + 1)
    | some results =>
      let acc2 := acc ++ extractRows a results
      if results.length = 2000 then
        let r := logLoop b a fuel (LogReq.more a (lastAlpha results)) acc2
        (r.1, req :: r.2.1, r.2.2)
      else (acc2, [req], fuel + 1)
  | 0, req, acc =>
    match b req with
    | none => (acc, [req], 0)
    | some results => (acc ++ extractRows a results, [req], 0)

/-- findLogCountByHost restricted to a single account: issue the initial
getLogCountByEntity request and run the watermark loop. -/
def findLogCountByHostAccount (b : LogReq → Option (List Row)) (a : Int) (fuel : Nat) :
    List HostRec × List LogReq × Nat :=
  logLoop b a fuel (LogReq.first a) []

/-- findLogCountByHost of the script: iterate the per-account loop over the
accounts list, accumulating records and issued requests in order. -/
def findLogCountByHost (b : LogReq → Option (List Row)) (accounts : List Int) (fuel : Nat) :
    List HostRec × List LogReq :=
  accounts.foldl (fun s a =>
    let r := findLogCountByHostAccount b a fuel
    (s.1 ++ r.1, s.2 ++ r.2.1)) ([], [])

/-- The records pushed by one iteration of the findHosts entity loop: hosts
with a truthy guid become objects with keys guid and accountId (the name
attribute of the entity is not copied by the code). -/
def extractEntities (page : EntityPage) : List HostRec :=
  (page.entities.filter (fun e => (strTruthy e.guid).isSome)).map
    (fun e => ⟨e.accountId, e.guid, none, none⟩)

/-- The while-loop of findHosts.  req is the request whose response is about
to be processed, fuel bounds the number of follow-up cursor requests still
allowed.  Returns the accumulated hosts, the requests issued (req first),
and the remaining fuel (positive remaining fuel means the loop stopped on
its own: undefined response or falsy nextCursor). -/
def entLoop (b : EntReq → Option EntityPage) :
    Nat → EntReq → List HostRec → List HostRec × List EntReq × Nat
  | fuel + 1, req, acc =>
    match b req with
    | none => (acc, [req], fuel + 1)
    | some page =>
      let acc2 := acc ++ extractEntities page
      match strTruthy page.nextCursor with
      | none => (acc2, [req], fuel + 1)
      | some c =>
        let r := entLoop b fuel (EntReq.more c) acc2
        (r.1, req :: r.2.1, r.2.2)
  | 0, req, acc =>
    match b req with
    | none => (acc, [req], 0)
    | some page => (acc ++ extractEntities page, [req], 0)

/-- findHosts of the script.  The initial getXstoreEntities response is read
for its count field before the loop starts, so an undefined first response
makes the function throw (modelled as none); otherwise the cursor loop
runs from the initial request. -/
def findHosts (b : EntReq → Option EntityPage) (fuel : Nat) :
    Option (List HostRec × List EntReq × Nat) :=
  match b EntReq.first with
  | none => none
  | some _ => some (entLoop b fuel EntReq.first [])

/-- The entities contributed by the response to one request: what the body
of the findHosts loop pushes when processing that response (nothing when
the response is undefined). -/
def pageEntitiesOf (b : EntReq → Option EntityPage) (r : EntReq) : List HostRec :=
  match b r with
  | none => []
  | some page => extractEntities page

/-- The records contributed by the response to one log-count request:
what the findLogCountByHost loop body pushes when processing it. -/
def pageRowsOf (b : LogReq → Option (List Row)) (a : Int) (r : LogReq) : List HostRec :=
  match b r with
  | none => []
  | some results => extractRows a results

/-- An error thrown by the https request machinery: its code property and
the result of calling toString() on it. -/
structure NetErr where
  code : Option Int
  msg : String
deriving Repr, DecidableEq

/-- Whether the character sequence pat starts the character sequence s. -/
def charsStartWith : List Char → List Char → Bool
  | [], _ => true
  | _ :: _, [] => false
  | p :: ps, c :: cs => p == c && charsStartWith ps cs

/-- Whether pat occurs as a contiguous subsequence of s. -/
def charsOccurIn : List Char → List Char → Bool
  | pat, [] => charsStartWith pat []
  | pat, c :: cs => charsStartWith pat (c :: cs) || charsOccurIn pat cs

/-- Embedding of the JS String.includes test. -/
def strIncludes (s pat : String) : Bool := charsOccurIn pat.data s.data

/-- The condition tested by handleNetworkError: err.code is 18 or 19 (the
OpenSSL self-signed-certificate verification codes) or the error string
mentions a self signed certificate. -/
def isFatalTrust (e : NetErr) : Bool :=
  e.code == some 18 || e.code == some 19 || strIncludes e.msg "self signed certificate"

/-- The messages the script can write to stderr while executing a query:
the API errors dump, the certificate help text, or the generic exception
line printed by handleNetworkError for non-certificate errors. -/
inductive Msg where
  | apiErrors : Msg
  | certHelp : Msg
  | exception : Msg
deriving Repr, DecidableEq

/-- handleNetworkError: for a certificate-trust failure it prints the
certificate help text and exits the process with code 5 (returned as
some 5); otherwise it prints the exception line and returns (none). -/
def handleNetworkError (e : NetErr) : Option Nat × Msg :=
  if isFatalTrust e then (some 5, Msg.certHelp) else (none, Msg.exception)

/-- The observable outcome of one transport attempt: either the promise
resolved to a parsed body (with the truthiness of its errors field and its
optional data section), or it rejected with an error (connection failure,
or JSON.parse throwing on a malformed body). -/
inductive Outcome (α : Type) where
  | resp : Bool → Option α → Outcome α
  | raised : NetErr → Outcome α
deriving Repr, DecidableEq

/-- What nerdgraphQuery produces for its caller: the data section, the JS
undefined (noData), or termination of the whole process by process.exit
with the given code. -/
inductive QueryResult (α : Type) where
  | success : α → QueryResult α
  | noData : QueryResult α
  | fatalExit : Nat → QueryResult α
deriving Repr, DecidableEq

/-- A full run of nerdgraphQuery: its result, how many transport attempts
were actually made, and the stderr messages written, in order. -/
structure QueryRun (α : Type) where
  result : QueryResult α
  attempts : Nat
  msgs : List Msg
deriving Repr, DecidableEq

/-- The second try block of nerdgraphQuery: re-send the identical request;
return the data section if present; otherwise fall through to returning
undefined.  A thrown error goes through handleNetworkError.  Note the
second block never inspects the errors field of the response. -/
def secondAttempt (a2 : Outcome α) (m1 : List Msg) : QueryRun α :=
  match a2 with
  | Outcome.resp _ d =>
    match d with
    | some dat => ⟨QueryResult.success dat, 2, m1⟩
    | none => ⟨QueryResult.noData, 2, m1⟩
  | Outcome.raised e =>
    match handleNetworkError e with
    | (some code, m) => ⟨QueryResult.fatalExit code, 2, m1 ++ [m]⟩
    | (none, m) => ⟨QueryResult.noData, 2, m1 ++ [m]⟩

/-- nerdgraphQuery of the script, abstracted over the outcomes the
transport would give to its first and second attempt.  First attempt: if
the response carries an errors field it is dumped to stderr; if it carries
data, that data is returned at once.  A thrown error is classified by
handleNetworkError (certificate-trust errors exit the process, so the
second attempt never happens).  Any other first-attempt failure falls
through to the single retry. -/
def nerdgraphQuery (a1 a2 : Outcome α) : QueryRun α :=
  match a1 with
  | Outcome.resp errs d =>
    let m1 := if errs then [Msg.apiErrors] else []
    match d with
    | some dat => ⟨QueryResult.success dat, 1, m1⟩
    | none => secondAttempt a2 m1
  | Outcome.raised e =>
    match handleNetworkError e with
    | (some code, m) => ⟨QueryResult.fatalExit code, 1, [m]⟩
    | (none, m) => secondAttempt a2 [m]

/-- An account object of the accessibleAccounts response. -/
structure Account where
  id : Int
  name : String
deriving Repr, DecidableEq

/-- fetchAccountIds: map the accounts of the response to their ids; any
failure to obtain a well-shaped response (nerdgraphQuery returning
undefined makes the property access throw, which the catch turns into
undefined) yields none. -/
def fetchAccountIds (resp : Option (List Account)) : Option (List Int) :=
  resp.map (fun accs => accs.map Account.id)

/-- The observable outcome of the flow in requestApiKey after the key is
entered: whether the invalid-key error was printed and the process exited
with code 1, which scan requests were issued, the final hostsWithLogs
records, and whether findHosts threw on an undefined first response. -/
structure RunResult where
  exit1 : Bool
  entityRequests : List EntReq
  logRequests : List LogReq
  hostsWithLogs : List HostRec
  crashed : Bool
deriving Repr, DecidableEq

/-- The scanning phase of requestApiKey once the account gate has passed:
findHosts, then the set of accountIds of the found hosts (JS Set spread),
then findLogCountByHost over those accounts. -/
def scanPhase (eb : EntReq → Option EntityPage) (lb : LogReq → Option (List Row))
    (fuel : Nat) : RunResult :=
  match findHosts eb fuel with
  | none => ⟨false, [EntReq.first], [], [], true⟩
  | some r =>
    let accountsWithHosts := jsSetDedup (r.1.map HostRec.accountId)
    let lr := findLogCountByHost lb accountsWithHosts fuel
    ⟨false, r.2.1, lr.2, lr.1, false⟩

/-- The credential gate of requestApiKey: fetch the account ids; only when
the result is defined and nonempty does the scan phase run; otherwise the
invalid-key error is printed and the process exits with code 1 (exit1),
with no entity or log request ever issued. -/
def requestApiKey (accountsResp : Option (List Account))
    (eb : EntReq → Option EntityPage) (lb : LogReq → Option (List Row))
    (fuel : Nat) : RunResult :=
  match fetchAccountIds accountsResp with
  | some ids => if ids.length > 0 then scanPhase eb lb fuel else ⟨true, [], [], [], false⟩
  | none => ⟨true, [], [], [], false⟩

/-- The result of the reconciliation described in the design document. -/
structure ReconciliationResult where
  inventoryOnly : List HostRec
  logsOnly : List HostRec
  newlyMissing : List HostRec
  newlyAppeared : List HostRec
deriving Repr, DecidableEq

/-- Modelled from the spec: the hostname-keyed set difference of section
4.5 of the design document.  The reconciler itself is code of this
repository that is not present under src (only this single-file variant of
the script is), so it is modelled from the spec words: keep every left
element whose hostname key is not present among the right elements. -/
def minusByHostname (l r : List HostRec) : List HostRec :=
  l.filter (fun x => !(r.any (fun y => y.hostname == x.hostname)))

/-- Modelled from the spec: reconcile(inventoryHosts, logHostsWindow1,
logHostsWindow2) of section 4.5, where window1 is the current (most
recent) window and window2 the prior one: inventoryOnly = inventory minus
window1, logsOnly = window1 minus inventory, newlyMissing = window2 minus
window1 (logged yesterday, not today), newlyAppeared = window1 minus
window2 (logged today, not yesterday); all by hostname. -/
def reconcile (inventoryHosts logHostsWindow1 logHostsWindow2 : List HostRec) :
    ReconciliationResult :=
  ⟨minusByHostname inventoryHosts logHostsWindow1,
   minusByHostname logHostsWindow1 inventoryHosts,
   minusByHostname logHostsWindow2 logHostsWindow1,
   minusByHostname logHostsWindow1 logHostsWindow2⟩

/-- The watermark link between two consecutive log-count requests: the
response to the first was a full page of exactly 2000 rows, and the second
is the requery whose spliced filter uses the watermark computed by the
code from that page. -/
def watermarkLinked (b : LogReq → Option (List Row)) (a : Int) (r r2 : LogReq) : Prop :=
  ∃ page, b r = some page ∧ page.length = 2000 ∧
    r2 = LogReq.more a (lastAlpha page) ∧
    lastAlpha page ∈ page.map Row.hostname ∧
    ∀ h ∈ page.map Row.hostname, h ≤ lastAlpha page

/-- The cursor link between two consecutive entity-search requests: the
response to the first was a page with a truthy nextCursor, and the second
is the getMoreXstoreEntities request carrying exactly that cursor. -/
def cursorLinked (b : EntReq → Option EntityPage) (r r2 : EntReq) : Prop :=
  ∃ page, b r = some page ∧
    ∃ c, strTruthy page.nextCursor = some c ∧ r2 = EntReq.more c

/-- A backend on which entity pagination stalls: every page is empty and
returns the same cursor c1 again. -/
def stallBackend : EntReq → Option EntityPage :=
  fun _ => some ⟨[], some "c1"⟩

/-- A log-count backend with an empty result set for every request. -/
def lbEmptyPages : LogReq → Option (List Row) :=
  fun _ => some []

/-- A one-page entity backend whose single entity has a guid and a name. -/
def ebOnePage : EntReq → Option EntityPage :=
  fun _ => some ⟨[⟨some "g1", "host-1", 1, true⟩], none⟩

/-- A two-page entity backend: the first page holds one guid-less entity
and one valid entity and points at cursor c1; the second page holds one
valid entity and no cursor. -/
def ebTwoPages : EntReq → Option EntityPage
  | EntReq.first => some ⟨[⟨none, "h0", 1, true⟩, ⟨some "g2", "h2", 1, true⟩], some "c1"⟩
  | EntReq.more c => if c = "c1" then some ⟨[⟨some "g3", "h3", 2, false⟩], none⟩ else none

/-- A network error carrying OpenSSL verification code 18
(X509_V_ERR_DEPTH_ZERO_SELF_SIGNED_CERT). -/
def certErr : NetErr := ⟨some 18, "Error: request failed"⟩

/-- A transient network error: no code, no certificate indication. -/
def transientErr : NetErr := ⟨none, "Error: socket hang up"⟩

/-- Whether one transport attempt failed in the sense of nerdgraphQuery:
it either resolved to a body with no data section, or it threw. -/
def attemptFails (a : Outcome α) : Prop :=
  (∃ errs, a = Outcome.resp errs none) ∨ ∃ e, a = Outcome.raised e

/-- Whether an attempt outcome is classified as a certificate-trust
failure: only a thrown error can be. -/
def fatalOutcome : Outcome α → Bool
  | Outcome.raised e => isFatalTrust e
  | Outcome.resp _ _ => false

theorem jsSetDedupAux_mem [DecidableEq α] (x : α) :
    ∀ (l seen : List α), x ∈ jsSetDedupAux seen l ↔ x ∈ l ∧ x ∉ seen := by
  intro l
  induction l with
  | nil => intro seen; simp [jsSetDedupAux]
  | cons a rest ih =>
    intro seen
    by_cases h : a ∈ seen
    · simp only [jsSetDedupAux, if_pos h, ih, List.mem_cons]
      constructor
      · rintro ⟨hr, hs⟩; exact ⟨Or.inr hr, hs⟩
      · rintro ⟨hm, hs⟩
        rcases hm with rfl | hr
        · exact absurd h hs
        · exact ⟨hr, hs⟩
    · simp only [jsSetDedupAux, if_neg h, List.mem_cons, ih]
      constructor
      · rintro (rfl | ⟨hr, hs⟩)
        · exact ⟨Or.inl rfl, h⟩
        · exact ⟨Or.inr hr, fun hseen => hs (Or.inr hseen)⟩
      · rintro ⟨rfl | hr, hs⟩
        · exact Or.inl rfl
        · by_cases hxa : x = a
          · exact Or.inl hxa
          · exact Or.inr ⟨hr, fun hc => hc.elim hxa hs⟩

theorem jsSetDedup_mem [DecidableEq α] (x : α) (l : List α) :
    x ∈ jsSetDedup l ↔ x ∈ l := by
  simp [jsSetDedup, jsSetDedupAux_mem]

theorem le_getLastD_of_sorted :
    ∀ (l : List String), l.Sorted (fun a b : String => a ≤ b) →
      ∀ x ∈ l, x ≤ (l.getLast?).getD "" := by
  intro l
  induction l with
  | nil => intro _ x hx; simp at hx
  | cons a t ih =>
    intro hs x hx
    rcases List.sorted_cons.mp hs with ⟨ha, ht⟩
    cases t with
    | nil =>
      rcases List.mem_cons.mp hx with rfl | hx
      · simp
      · simp at hx
    | cons b t2 =>
      have hlast : (a :: b :: t2).getLast? = (b :: t2).getLast? := by
        simp [List.getLast?_cons_cons]
      rcases List.mem_cons.mp hx with rfl | hx
      · have hne : (b :: t2) ≠ [] := by simp
        have hmem : (b :: t2).getLast hne ∈ b :: t2 := List.getLast_mem hne
        have : (b :: t2).getLast? = some ((b :: t2).getLast hne) :=
          List.getLast?_eq_getLast _ hne
        rw [hlast, this]
        exact ha _ hmem
      · rw [hlast]
        exact ih ht x hx

theorem lastAlpha_max (results : List Row) (h : results ≠ []) :
    lastAlpha results ∈ results.map Row.hostname ∧
      ∀ s ∈ results.map Row.hostname, s ≤ lastAlpha results := by
  have hperm := List.perm_insertionSort (fun a b : String => a ≤ b)
    (jsSetDedup (results.map Row.hostname))
  have hsorted := List.sorted_insertionSort (fun a b : String => a ≤ b)
    (jsSetDedup (results.map Row.hostname))
  set names := List.insertionSort (fun a b : String => a ≤ b)
    (jsSetDedup (results.map Row.hostname)) with hnames
  have hmem_iff : ∀ x : String, x ∈ names ↔ x ∈ results.map Row.hostname := by
    intro x
    rw [hperm.mem_iff, jsSetDedup_mem]
  have hne : names ≠ [] := by
    obtain ⟨r, hr⟩ := List.exists_mem_of_ne_nil results h
    have : r.hostname ∈ results.map Row.hostname := List.mem_map_of_mem _ hr
    exact List.ne_nil_of_mem ((hmem_iff r.hostname).mpr this)
  have hLA : lastAlpha results = (names.getLast?).getD "" := rfl
  constructor
  · rw [hLA, List.getLast?_eq_getLast _ hne]
    exact (hmem_iff _).mp (List.getLast_mem hne)
  · intro s hsm
    rw [hLA]
    exact le_getLastD_of_sorted names hsorted s ((hmem_iff s).mpr hsm)

theorem logLoop_head (b : LogReq → Option (List Row)) (a : Int) :
    ∀ (fuel : Nat) (req : LogReq) (acc : List HostRec),
      ((logLoop b a fuel req acc).2.1).head? = some req := by
  intro fuel req acc
  cases fuel with
  | zero => cases hb : b req <;> simp [logLoop, hb]
  | succ f =>
    cases hb : b req with
    | none => simp [logLoop, hb]
    | some results =>
      by_cases hc : results.length = 2000 <;> simp [logLoop, hb, hc]

theorem logLoop_chain (b : LogReq → Option (List Row)) (a : Int) :
    ∀ (fuel : Nat) (req : LogReq) (acc : List HostRec),
      List.Chain' (watermarkLinked b a) ((logLoop b a fuel req acc).2.1) := by
  intro fuel
  induction fuel with
  | zero =>
    intro req acc
    cases hb : b req <;> simp [logLoop, hb]
  | succ f ih =>
    intro req acc
    cases hb : b req with
    | none => simp [logLoop, hb]
    | some results =>
      by_cases hc : results.length = 2000
      · have hne : results ≠ [] := by
          intro h0; rw [h0] at hc; simp at hc
        simp only [logLoop, hb, if_pos hc]
        refine List.chain'_cons'.mpr ⟨?_, ih _ _⟩
        intro y hy
        rw [logLoop_head] at hy
        have hy2 : y = LogReq.more a (lastAlpha results) := by
          have := hy
          simp only [Option.mem_def, Option.some.injEq] at this
          exact this.symm
        subst hy2
        exact ⟨results, hb, hc, rfl, (lastAlpha_max results hne).1,
          (lastAlpha_max results hne).2⟩
      · simp [logLoop, hb, hc]

theorem logLoop_last (b : LogReq → Option (List Row)) (a : Int) :
    ∀ (fuel : Nat) (req : LogReq) (acc : List HostRec) (p : LogReq),
      0 < (logLoop b a fuel req acc).2.2 →
      ((logLoop b a fuel req acc).2.1).getLast? = some p →
      b p = none ∨ ∃ page, b p = some page ∧ page.length ≠ 2000 := by
  intro fuel
  induction fuel with
  | zero =>
    intro req acc p h0 _
    cases hb : b req <;> simp [logLoop, hb] at h0
  | succ f ih =>
    intro req acc p hf hl
    cases hb : b req with
    | none =>
      simp only [logLoop, hb, List.getLast?_singleton, Option.some.injEq] at hl
      subst hl
      exact Or.inl hb
    | some results =>
      by_cases hc : results.length = 2000
      · simp only [logLoop, hb, if_pos hc] at hf hl
        have hh := logLoop_head b a f (LogReq.more a (lastAlpha results))
          (acc ++ extractRows a results)
        cases htr : (logLoop b a f (LogReq.more a (lastAlpha results))
            (acc ++ extractRows a results)).2.1 with
        | nil => rw [htr] at hh; simp at hh
        | cons x xs =>
          rw [htr] at hl
          rw [List.getLast?_cons_cons] at hl
          have := ih (LogReq.more a (lastAlpha results)) (acc ++ extractRows a results) p hf
          rw [htr] at this
          exact this hl
      · simp only [logLoop, hb, if_neg hc, List.getLast?_singleton, Option.some.injEq] at hl
        subst hl
        exact Or.inr ⟨results, hb, hc⟩

theorem logLoop_acc (b : LogReq → Option (List Row)) (a : Int) :
    ∀ (fuel : Nat) (req : LogReq) (acc : List HostRec),
      (logLoop b a fuel req acc).1 =
        acc ++ ((logLoop b a fuel req acc).2.1).flatMap (pageRowsOf b a) := by
  intro fuel
  induction fuel with
  | zero =>
    intro req acc
    cases hb : b req <;> simp [logLoop, hb, pageRowsOf]
  | succ f ih =>
    intro req acc
    cases hb : b req with
    | none => simp [logLoop, hb, pageRowsOf]
    | some results =>
      by_cases hc : results.length = 2000
      · simp only [logLoop, hb, if_pos hc]
        rw [ih]
        simp [pageRowsOf, hb, List.append_assoc]
      · simp [logLoop, hb, hc, pageRowsOf]

theorem entLoop_head (b : EntReq → Option EntityPage) :
    ∀ (fuel : Nat) (req : EntReq) (acc : List HostRec),
      ((entLoop b fuel req acc).2.1).head? = some req := by
  intro fuel req acc
  cases fuel with
  | zero => cases hb : b req <;> simp [entLoop, hb]
  | succ f =>
    cases hb : b req with
    | none => simp [entLoop, hb]
    | some page =>
      cases ht : strTruthy page.nextCursor <;> simp [entLoop, hb, ht]

theorem entLoop_chain (b : EntReq → Option EntityPage) :
    ∀ (fuel : Nat) (req : EntReq) (acc : List HostRec),
      List.Chain' (cursorLinked b) ((entLoop b fuel req acc).2.1) := by
  intro fuel
  induction fuel with
  | zero =>
    intro req acc
    cases hb : b req <;> simp [entLoop, hb]
  | succ f ih =>
    intro req acc
    cases hb : b req with
    | none => simp [entLoop, hb]
    | some page =>
      cases ht : strTruthy page.nextCursor with
      | none => simp [entLoop, hb, ht]
      | some c =>
        simp only [entLoop, hb, ht]
        refine List.chain'_cons'.mpr ⟨?_, ih _ _⟩
        intro y hy
        rw [entLoop_head] at hy
        have hy2 : y = EntReq.more c := by
          have := hy
          simp only [Option.mem_def, Option.some.injEq] at this
          exact this.symm
        subst hy2
        exact ⟨page, hb, c, ht, rfl⟩

theorem entLoop_last (b : EntReq → Option EntityPage) :
    ∀ (fuel : Nat) (req : EntReq) (acc : List HostRec) (p : EntReq),
      0 < (entLoop b fuel req acc).2.2 →
      ((entLoop b fuel req acc).2.1).getLast? = some p →
      b p = none ∨ ∃ page, b p = some page ∧ strTruthy page.nextCursor = none := by
  intro fuel
  induction fuel with
  | zero =>
    intro req acc p h0 _
    cases hb : b req <;> simp [entLoop, hb] at h0
  | succ f ih =>
    intro req acc p hf hl
    cases hb : b req with
    | none =>
      simp only [entLoop, hb, List.getLast?_singleton, Option.some.injEq] at hl
      subst hl
      exact Or.inl hb
    | some page =>
      cases ht : strTruthy page.nextCursor with
      | none =>
        simp only [entLoop, hb, ht, List.getLast?_singleton, Option.some.injEq] at hl
        subst hl
        exact Or.inr ⟨page, hb, ht⟩
      | some c =>
        simp only [entLoop, hb, ht] at hf hl
        have hh := entLoop_head b f (EntReq.more c) (acc ++ extractEntities page)
        cases htr : (entLoop b f (EntReq.more c) (acc ++ extractEntities page)).2.1 with
        | nil => rw [htr] at hh; simp at hh
        | cons x xs =>
          rw [htr] at hl
          rw [List.getLast?_cons_cons] at hl
          have := ih (EntReq.more c) (acc ++ extractEntities page) p hf
          rw [htr] at this
          exact this hl

theorem entLoop_acc (b : EntReq → Option EntityPage) :
    ∀ (fuel : Nat) (req : EntReq) (acc : List HostRec),
      (entLoop b fuel req acc).1 =
        acc ++ ((entLoop b fuel req acc).2.1).flatMap (pageEntitiesOf b) := by
  intro fuel
  induction fuel with
  | zero =>
    intro req acc
    cases hb : b req <;> simp [entLoop, hb, pageEntitiesOf]
  | succ f ih =>
    intro req acc
    cases hb : b req with
    | none => simp [entLoop, hb, pageEntitiesOf]
    | some page =>
      cases ht : strTruthy page.nextCursor with
      | none => simp [entLoop, hb, ht, pageEntitiesOf]
      | some c =>
        simp only [entLoop, hb, ht]
        rw [ih]
        simp [pageEntitiesOf, hb, List.append_assoc]

theorem strTruthy_isSome (o : Option String) (h : (strTruthy o).isSome = true) :
    ∃ g, o = some g ∧ g ≠ "" := by
  cases o with
  | none => simp [strTruthy] at h
  | some s =>
    by_cases hs : s = ""
    · simp [strTruthy, hs] at h
    · exact ⟨s, rfl, hs⟩

theorem secondAttempt_attempts (a2 : Outcome α) (m1 : List Msg) :
    (secondAttempt a2 m1).attempts = 2 := by
  cases a2 with
  | resp errs d => cases d <;> rfl
  | raised e =>
    by_cases hf : isFatalTrust e <;> simp [secondAttempt, handleNetworkError, hf]

theorem nerdgraphQuery_eq_second (a1 a2 : Outcome α)
    (hfail : attemptFails a1) (hnf : fatalOutcome a1 = false) :
    ∃ m1, nerdgraphQuery a1 a2 = secondAttempt a2 m1 := by
  rcases hfail with ⟨errs, rfl⟩ | ⟨e, rfl⟩
  · exact ⟨if errs then [Msg.apiErrors] else [], rfl⟩
  · have hf : isFatalTrust e = false := hnf
    exact ⟨[Msg.exception], by simp [nerdgraphQuery, handleNetworkError, hf]⟩

/-- Claim C1: for every account, findLogCountByHost paginates by watermark:
the first request for the account is the unfiltered getLogCountByEntity
query; whenever a page has exactly 2000 rows (the page cap), the next
request issued for that account is the requery filtered by hostname
greater than the watermark, where the watermark is the lexicographically
maximum hostname of that page; and when the loop stops on its own (fuel
remaining), the response to the last request was either undefined or a
page whose row count differed from the cap, so no further request is
issued after a short page. -/
theorem c1_watermark_pagination (b : LogReq → Option (List Row)) (a : Int) (fuel : Nat) :
    ((findLogCountByHostAccount b a fuel).2.1).head? = some (LogReq.first a)
    ∧ List.Chain' (watermarkLinked b a) ((findLogCountByHostAccount b a fuel).2.1)
    ∧ (0 < (findLogCountByHostAccount b a fuel).2.2 →
        ∀ p, ((findLogCountByHostAccount b a fuel).2.1).getLast? = some p →
          b p = none ∨ ∃ page, b p = some page ∧ page.length ≠ 2000) :=
  ⟨logLoop_head b a fuel (LogReq.first a) [],
   logLoop_chain b a fuel (LogReq.first a) [],
   fun hf p hp => logLoop_last b a fuel (LogReq.first a) [] p hf hp⟩

/-- Witness for C1 at a concrete backend: the single page is empty, so the
trailing condition of the theorem applies to the one request issued. -/
theorem c1_watermark_pagination_witness :
    lbEmptyPages (LogReq.first 7) = none ∨
      ∃ page, lbEmptyPages (LogReq.first 7) = some page ∧ page.length ≠ 2000 :=
  (c1_watermark_pagination lbEmptyPages 7 5).2.2 (by decide) (LogReq.first 7) (by decide)

/-- Claim C2: findHosts follows the server cursor: the first request is the
cursor-less getXstoreEntities query; each following request carries
exactly the truthy nextCursor of the previous page; the hosts returned are
the flat concatenation, page by page and without deduplication, of the
entities with a truthy guid; and when the loop stops on its own, the last
response was undefined or carried no (truthy) cursor. -/
theorem c2_cursor_pagination (b : EntReq → Option EntityPage) (fuel : Nat)
    (res : List HostRec × List EntReq × Nat) (hres : findHosts b fuel = some res) :
    res.2.1.head? = some EntReq.first
    ∧ List.Chain' (cursorLinked b) res.2.1
    ∧ res.1 = res.2.1.flatMap (pageEntitiesOf b)
    ∧ (0 < res.2.2 → ∀ p, res.2.1.getLast? = some p →
        b p = none ∨ ∃ page, b p = some page ∧ strTruthy page.nextCursor = none) := by
  cases hb : b EntReq.first with
  | none => simp [findHosts, hb] at hres
  | some page0 =>
    have hres2 : res = entLoop b fuel EntReq.first [] := by
      simp [findHosts, hb] at hres
      exact hres.symm
    subst hres2
    refine ⟨entLoop_head b fuel EntReq.first [], entLoop_chain b fuel EntReq.first [],
      ?_, fun hf p hp => entLoop_last b fuel EntReq.first [] p hf hp⟩
    have := entLoop_acc b fuel EntReq.first []
    simpa using this

/-- Witness for C2 at a concrete two-page backend: the returned hosts are
exactly the concatenation of the valid entities of the two visited pages. -/
theorem c2_cursor_pagination_witness :
    ([⟨1, some "g2", none, none⟩, ⟨2, some "g3", none, none⟩] : List HostRec) =
      [EntReq.first, EntReq.more "c1"].flatMap (pageEntitiesOf ebTwoPages) :=
  (c2_cursor_pagination ebTwoPages 5
    ([⟨1, some "g2", none, none⟩, ⟨2, some "g3", none, none⟩],
      [EntReq.first, EntReq.more "c1"], 4)
    (by decide)).2.2.1

/-- Claim C3 counterexample: the claim as stated says that on a
first-attempt failure of the kind thrown network error the identical
request is retried exactly once, i.e. two attempts are made.  certErr is a
thrown network error (OpenSSL code 18); on it nerdgraphQuery makes only
one attempt, because handleNetworkError exits the process before the
retry.  So the unqualified retry clause of the claim is false. -/
theorem c3_counterexample :
    (nerdgraphQuery (Outcome.raised certErr) (Outcome.resp false (some (0 : Nat)))).attempts
      ≠ 2 := by decide

/-- Claim C3 (amended): nerdgraphQuery attempts the identical request at
most twice; on a first-attempt failure (thrown error, or response without
a data section) that is not a certificate-trust failure it retries exactly
once; a first response carrying data is returned as success after one
attempt; a data-carrying second response is returned as success; and when
both attempts fail with neither being a certificate-trust failure, the
result is noData (the JS undefined), with no further attempt. -/
theorem c3_retry_once {α : Type} (a1 a2 : Outcome α) :
    (nerdgraphQuery a1 a2).attempts ≤ 2
    ∧ (attemptFails a1 → fatalOutcome a1 = false → (nerdgraphQuery a1 a2).attempts = 2)
    ∧ (∀ errs d, a1 = Outcome.resp errs (some d) →
        (nerdgraphQuery a1 a2).result = QueryResult.success d ∧
          (nerdgraphQuery a1 a2).attempts = 1)
    ∧ (∀ errs2 d, attemptFails a1 → fatalOutcome a1 = false →
        a2 = Outcome.resp errs2 (some d) →
        (nerdgraphQuery a1 a2).result = QueryResult.success d)
    ∧ (attemptFails a1 → fatalOutcome a1 = false →
        attemptFails a2 → fatalOutcome a2 = false →
        (nerdgraphQuery a1 a2).result = QueryResult.noData) := by
  refine ⟨?_, ?_, ?_, ?_, ?_⟩
  · cases a1 with
    | resp errs d =>
      cases d with
      | some dat => simp [nerdgraphQuery]
      | none =>
        simp only [nerdgraphQuery]
        rw [secondAttempt_attempts]
    | raised e =>
      by_cases hf : isFatalTrust e
      · simp [nerdgraphQuery, handleNetworkError, hf]
      · have hf2 : isFatalTrust e = false := by simpa using hf
        obtain ⟨m1, hm⟩ := nerdgraphQuery_eq_second (Outcome.raised e) a2
          (Or.inr ⟨e, rfl⟩) hf2
        rw [hm, secondAttempt_attempts]
  · intro hfail hnf
    obtain ⟨m1, hm⟩ := nerdgraphQuery_eq_second a1 a2 hfail hnf
    rw [hm, secondAttempt_attempts]
  · rintro errs d rfl
    exact ⟨rfl, rfl⟩
  · rintro errs2 d hfail hnf rfl
    obtain ⟨m1, hm⟩ := nerdgraphQuery_eq_second a1 _ hfail hnf
    rw [hm]
    rfl
  · intro hfail1 hnf1 hfail2 hnf2
    obtain ⟨m1, hm⟩ := nerdgraphQuery_eq_second a1 a2 hfail1 hnf1
    rw [hm]
    rcases hfail2 with ⟨errs2, rfl⟩ | ⟨e2, rfl⟩
    · rfl
    · have hf2 : isFatalTrust e2 = false := hnf2
      simp [secondAttempt, handleNetworkError, hf2]

/-- Witness for C3 (amended) at concrete outcomes: a transient thrown error
followed by a data-less response yields noData after exactly two
attempts. -/
theorem c3_retry_once_witness :
    (nerdgraphQuery (Outcome.raised transientErr)
        (Outcome.resp false (none : Option Nat))).result = QueryResult.noData
    ∧ (nerdgraphQuery (Outcome.raised transientErr)
        (Outcome.resp false (none : Option Nat))).attempts = 2 :=
  ⟨(c3_retry_once (Outcome.raised transientErr) (Outcome.resp false none)).2.2.2.2
      (Or.inr ⟨transientErr, rfl⟩) (by decide) (Or.inl ⟨false, rfl⟩) (by decide),
   (c3_retry_once (Outcome.raised transientErr) (Outcome.resp false none)).2.1
      (Or.inr ⟨transientErr, rfl⟩) (by decide)⟩

/-- Claim C4: whenever a request error indicates a certificate-trust
failure (OpenSSL code 18 or 19, or an error string containing the self
signed certificate indicator), nerdgraphQuery halts the whole run at once:
the result is the distinct exit with code 5, the certificate guidance is
printed, and only one attempt was made, so the retry never happens for
that query. -/
theorem c4_fatal_trust {α : Type} (e : NetErr) (a2 : Outcome α)
    (h : e.code = some 18 ∨ e.code = some 19 ∨
      strIncludes e.msg "self signed certificate" = true) :
    nerdgraphQuery (Outcome.raised e) a2 =
      ⟨QueryResult.fatalExit 5, 1, [Msg.certHelp]⟩ := by
  have hf : isFatalTrust e = true := by
    rcases h with h | h | h <;> simp [isFatalTrust, h]
  simp [nerdgraphQuery, handleNetworkError, hf]

/-- Witness for C4 at a concrete error with OpenSSL code 19. -/
theorem c4_fatal_trust_witness :
    nerdgraphQuery (Outcome.raised ⟨some 19, "Error: request failed"⟩)
        (Outcome.resp false (none : Option Nat)) =
      ⟨QueryResult.fatalExit 5, 1, [Msg.certHelp]⟩ :=
  c4_fatal_trust _ _ (Or.inr (Or.inl rfl))

/-- Lemma: on the stalling backend, for every fuel bound the findHosts loop
spends its entire budget reissuing the request with the same cursor c1. -/
theorem entLoop_stall :
    ∀ (n : Nat) (req : EntReq),
      entLoop stallBackend n req [] =
        ([], req :: List.replicate n (EntReq.more "c1"), 0) := by
  intro n
  induction n with
  | zero =>
    intro req
    simp [entLoop, stallBackend, extractEntities]
  | succ f ih =>
    intro req
    simp [entLoop, stallBackend, strTruthy, extractEntities, ih, List.replicate_succ]

/-- Claim C5 (divergence witness): on a backend that answers every request
with the same page carrying the same cursor c1 twice in a row (and
forever), findHosts never aborts: for every fuel bound n it issues n + 1
requests, all follow-ups asking for the very same cursor, and stops only
because the fuel is exhausted (remaining fuel 0).  The source has no
non-progress detection and nothing resembling PaginationStalled: the real
loop runs forever on this input. -/
theorem c5_stall_divergence (n : Nat) :
    findHosts stallBackend n =
      some ([], EntReq.first :: List.replicate n (EntReq.more "c1"), 0) := by
  simp [findHosts, stallBackend, entLoop_stall]

/-- Claim C6: the reconciliation of section 4.5 (modelled from the spec,
since the reconciling variant of the script is not under src) on the
end-to-end scenario: inventory a, b, c; window1 logs b, d; window2 logs
b, c.  It yields inventoryOnly a, c; logsOnly d; newlyMissing c;
newlyAppeared d — the four hostname-keyed set differences. -/
theorem c6_reconcile_scenario :
    reconcile
        [⟨0, none, some "a", none⟩, ⟨0, none, some "b", none⟩, ⟨0, none, some "c", none⟩]
        [⟨0, none, some "b", none⟩, ⟨0, none, some "d", none⟩]
        [⟨0, none, some "b", none⟩, ⟨0, none, some "c", none⟩] =
      ⟨[⟨0, none, some "a", none⟩, ⟨0, none, some "c", none⟩],
       [⟨0, none, some "d", none⟩],
       [⟨0, none, some "c", none⟩],
       [⟨0, none, some "d", none⟩]⟩ := by decide

/-- Claim C7 counterexample: the claim says every HostRecord produced from
inventory carries a hostname alongside its hostId and accountId.  On a
backend whose one entity has guid g1 and name host-1, findHosts produces a
single record and its hostname key is absent (none): the code pushes only
guid and accountId and drops the entity name. -/
theorem c7_counterexample :
    (findHosts ebOnePage 3).map (fun res => res.1.map HostRec.hostname) =
      some [none] := by decide

/-- Claim C7 (amended): every record produced by findHosts carries a
non-empty guid (the stable entity identifier) and its accountId but no
hostname and no logCount; every record produced by findLogCountByHost for
an account carries that accountId, a hostname and a logCount but never a
guid.  (In this variant the log-derived records are keyed by hostname
while inventory records only carry guids.) -/
theorem c7_record_shape :
    (∀ (b : EntReq → Option EntityPage) (fuel : Nat)
        (res : List HostRec × List EntReq × Nat),
      findHosts b fuel = some res → ∀ r ∈ res.1,
        (∃ g, r.guid = some g ∧ g ≠ "") ∧ r.hostname = none ∧ r.logCount = none)
    ∧ (∀ (b2 : LogReq → Option (List Row)) (a : Int) (fuel : Nat),
      ∀ r ∈ (findLogCountByHostAccount b2 a fuel).1,
        r.guid = none ∧ (∃ h, r.hostname = some h) ∧
          (∃ n, r.logCount = some n) ∧ r.accountId = a) := by
  constructor
  · intro b fuel res hres r hr
    cases hb : b EntReq.first with
    | none => simp [findHosts, hb] at hres
    | some page0 =>
      have hres2 : res = entLoop b fuel EntReq.first [] := by
        simp [findHosts, hb] at hres
        exact hres.symm
      subst hres2
      rw [entLoop_acc] at hr
      simp only [List.nil_append, List.mem_flatMap] at hr
      obtain ⟨req, _, hmem⟩ := hr
      unfold pageEntitiesOf at hmem
      cases hbr : b req with
      | none => rw [hbr] at hmem; simp at hmem
      | some page =>
        rw [hbr] at hmem
        unfold extractEntities at hmem
        simp only [List.mem_map, List.mem_filter] at hmem
        obtain ⟨e, ⟨_, htr⟩, rfl⟩ := hmem
        obtain ⟨g, hg, hgne⟩ := strTruthy_isSome e.guid htr
        exact ⟨⟨g, hg, hgne⟩, rfl, rfl⟩
  · intro b2 a fuel r hr
    unfold findLogCountByHostAccount at hr
    rw [logLoop_acc] at hr
    simp only [List.nil_append, List.mem_flatMap] at hr
    obtain ⟨req, _, hmem⟩ := hr
    unfold pageRowsOf at hmem
    cases hbr : b2 req with
    | none => rw [hbr] at hmem; simp at hmem
    | some results =>
      rw [hbr] at hmem
      unfold extractRows at hmem
      simp only [List.mem_map, List.mem_filter] at hmem
      obtain ⟨row, _, rfl⟩ := hmem
      exact ⟨rfl, ⟨row.hostname, rfl⟩, ⟨row.count, rfl⟩, rfl⟩

/-- Witness for C7 (amended) at the one-page backend: the produced record
has a non-empty guid, no hostname and no logCount. -/
theorem c7_record_shape_witness :
    (∃ g, (⟨1, some "g1", none, none⟩ : HostRec).guid = some g ∧ g ≠ "") ∧
      (⟨1, some "g1", none, none⟩ : HostRec).hostname = none ∧
      (⟨1, some "g1", none, none⟩ : HostRec).logCount = none :=
  c7_record_shape.1 ebOnePage 3 ([⟨1, some "g1", none, none⟩], [EntReq.first], 3)
    (by decide) ⟨1, some "g1", none, none⟩ (by decide)

/-- Claim C8: the credential gate of requestApiKey.  When the account
listing yields no data, or a data set with zero accounts, the run prints
the invalid-credential diagnosis and exits with code 1 (exit1), with no
entity request and no log request ever issued; when at least one account
id is listed, the run is exactly the scan phase (findHosts followed by the
per-account log scan). -/
theorem c8_credential_gate (eb : EntReq → Option EntityPage)
    (lb : LogReq → Option (List Row)) (fuel : Nat) :
    requestApiKey none eb lb fuel = ⟨true, [], [], [], false⟩
    ∧ requestApiKey (some []) eb lb fuel = ⟨true, [], [], [], false⟩
    ∧ ∀ accs : List Account, accs ≠ [] →
        requestApiKey (some accs) eb lb fuel = scanPhase eb lb fuel := by
  refine ⟨rfl, rfl, ?_⟩
  intro accs h
  have hpos : 0 < (accs.map Account.id).length := by
    rw [List.length_map]
    exact List.length_pos.mpr h
  simp only [requestApiKey, fetchAccountIds, Option.map_some, Option.map_some']
  rw [if_pos hpos]

/-- Witness for C8 at a concrete one-account listing and concrete scan
backends: the gate passes and the run equals the scan phase. -/
theorem c8_credential_gate_witness :
    requestApiKey (some [⟨1, "acme"⟩]) ebTwoPages lbEmptyPages 3 =
      scanPhase ebTwoPages lbEmptyPages 3 :=
  (c8_credential_gate ebTwoPages lbEmptyPages 3).2.2 [⟨1, "acme"⟩] (by decide)

/-- Claim C9: an account whose window has no log-emitting hosts — the NRQL
response has an empty results array — contributes an empty record list:
findLogCountByHost for that account returns no records, issues only the
initial request, and stops normally with its whole fuel left (no failure
of any kind). -/
theorem c9_empty_account (b : LogReq → Option (List Row)) (a : Int) (fuel : Nat)
    (h : b (LogReq.first a) = some []) :
    findLogCountByHostAccount b a fuel = ([], [LogReq.first a], fuel) := by
  cases fuel with
  | zero => simp [findLogCountByHostAccount, logLoop, h, extractRows]
  | succ f => simp [findLogCountByHostAccount, logLoop, h, extractRows]

/-- Witness for C9 at the concrete empty-results backend. -/
theorem c9_empty_account_witness :
    findLogCountByHostAccount lbEmptyPages 7 3 = ([], [LogReq.first 7], 3) :=
  c9_empty_account lbEmptyPages 7 3 rfl

/-- Claim C10: when the first response carries both an errors field and a
data section, nerdgraphQuery writes the errors dump to stderr yet returns
the data as a success after a single attempt (the retry is not consumed);
among received responses, exactly the data-less ones trigger the second
attempt; and the errors field of the second response is never reported:
the whole run is identical whether the second response carries errors or
not. -/
theorem c10_errors_with_data {α : Type} :
    (∀ (d : α) (a2 : Outcome α),
      nerdgraphQuery (Outcome.resp true (some d)) a2 =
        ⟨QueryResult.success d, 1, [Msg.apiErrors]⟩)
    ∧ (∀ (errs : Bool) (d : Option α) (a2 : Outcome α),
      (nerdgraphQuery (Outcome.resp errs d) a2).attempts = 2 ↔ d = none)
    ∧ (∀ (a1 : Outcome α) (errs : Bool) (d : Option α),
      nerdgraphQuery a1 (Outcome.resp errs d) =
        nerdgraphQuery a1 (Outcome.resp false d)) := by
  refine ⟨fun d a2 => rfl, ?_, ?_⟩
  · intro errs d a2
    cases d with
    | some dat => simp [nerdgraphQuery]
    | none =>
      simp only [nerdgraphQuery]
      rw [secondAttempt_attempts]
      simp
  · intro a1 errs d
    cases a1 with
    | resp errs1 d1 => cases d1 <;> rfl
    | raised e =>
      by_cases hf : isFatalTrust e
      · simp [nerdgraphQuery, handleNetworkError, hf]
      · have hf2 : isFatalTrust e = false := by simpa using hf
        simp [nerdgraphQuery, handleNetworkError, hf2, secondAttempt]

/-- Witness for C10 at concrete outcomes: errors plus data on the first
response give an immediate success with the errors reported once. -/
theorem c10_errors_with_data_witness :
    nerdgraphQuery (Outcome.resp true (some (4 : Nat))) (Outcome.resp false none) =
      ⟨QueryResult.success 4, 1, [Msg.apiErrors]⟩ :=
  c10_errors_with_data.1 4 (Outcome.resp false none)
